import Mathlib

/-!
Verification of the expense-categorizer core logic.

The program under study has two components:
* a Segment Extractor (`TransactionExtractor` in transaction_extractor.py)
  that locates the transaction-activity section of a statement text with a
  duplicated-character start marker and a literal stop marker, and within it
  the purchases subsection starting at the literal token "PURCHASE";
* a Category Aggregator (the dict-building loop in app.py / main.py) that
  sums transaction amounts per category.

Texts are modelled as lists of characters (Python `str`), `str.find` as
`strFind` returning `Option Nat`, `str.strip` as `pyStrip`, and the raised
`ValueError`s as an `Except String` result carrying the exact message the
code raises.  Transaction amounts are modelled as rationals (exact
arithmetic in place of Python floats).
-/

/-- Python text modelled as a list of characters. -/
abbrev Str := List Char

/-- The characters removed by Python `str.strip()` (ASCII whitespace). -/
def isPyWhitespace (c : Char) : Bool :=
  c = ' ' || c = '\t' || c = '\n' || c = '\r' || c = '\x0b' || c = '\x0c'

/-- Python `s.strip()`: remove leading and trailing whitespace. -/
def pyStrip (s : Str) : Str :=
  ((s.dropWhile isPyWhitespace).reverse.dropWhile isPyWhitespace).reverse

/-- `pat` occurs in `s` at index `k` (Python `s[k:k+len(pat)] == pat`). -/
def occursAt (pat s : Str) (k : Nat) : Prop :=
  pat.isPrefixOf (s.drop k) = true

instance (pat s : Str) (k : Nat) : Decidable (occursAt pat s k) := by
  unfold occursAt; infer_instance

/-- Python `s.find(pat)`: index of the first occurrence of `pat` in `s`,
`none` standing for the `-1` of the Python API. -/
def strFind (s pat : Str) : Option Nat :=
  if pat.isPrefixOf s then some 0
  else
    match s with
    | [] => none
    | _ :: t => (strFind t pat).map (· + 1)

/-- The extractor's state after `__init__` (transaction_extractor.py:36-46):
the two configured markers plus the precomputed formatted start marker. -/
structure TransactionExtractor where
  start_marker : Str
  stop_marker : Str
  formatted_start_marker : Str
deriving DecidableEq, Repr

/-- The loop body of `_format_start_marker`: each non-space character is
duplicated, spaces are kept as one space (transaction_extractor.py:48-59). -/
def formatStartMarker (sm : Str) : Str :=
  sm.foldl (fun acc c => if c ≠ ' ' then acc ++ [c, c] else acc ++ [c]) []

/-- `TransactionExtractor.__init__`: store both markers and precompute
`formatted_start_marker` once (transaction_extractor.py:36-46). -/
def TransactionExtractor.make (start_m stop_m : Str) : TransactionExtractor :=
  ⟨start_m, stop_m, formatStartMarker start_m⟩

/-- Message of the `ValueError` raised when the start marker is missing. -/
def startMarkerError : String := "Could not find start marker in text"

/-- Message of the `ValueError` raised when the stop marker is missing. -/
def stopMarkerError : String := "Could not find stop marker in text"

/-- Message of the `ValueError` raised when "PURCHASE" is missing. -/
def purchaseError : String := "Could not find PURCHASE in text"

/-- The literal token "PURCHASE" searched by `extract_purchases`. -/
def purchaseToken : Str := "PURCHASE".data

/-- `TransactionExtractor.extract_transactions`
(transaction_extractor.py:61-90): find the formatted start marker, find the
stop marker in the text after it, return the slice between them stripped. -/
def extract_transactions (e : TransactionExtractor) (text : Str) :
    Except String Str :=
  match strFind text e.formatted_start_marker with
  | none => .error startMarkerError
  | some title_pos =>
    let text_after_start := text.drop title_pos
    match strFind text_after_start e.stop_marker with
    | none => .error stopMarkerError
    | some stop_pos => .ok (pyStrip (text_after_start.take stop_pos))

/-- `TransactionExtractor.extract_purchases`
(transaction_extractor.py:92-159): extract the transactions text, find
"PURCHASE" in it, return from there to the end. -/
def extract_purchases (e : TransactionExtractor) (text : Str) :
    Except String Str :=
  match extract_transactions e text with
  | .error msg => .error msg
  | .ok all_transactions =>
    match strFind all_transactions purchaseToken with
    | none => .error purchaseError
    | some title_pos => .ok (all_transactions.drop title_pos)

/-- Python `text[i:j]` for `0 ≤ i ≤ j`. -/
def pySlice (s : Str) (i j : Nat) : Str := (s.take j).drop i

/-- A categorized transaction record as returned by the LLM collaborator:
a category label and an amount (app.py:179-181). -/
structure Record where
  category : String
  amount : ℚ
deriving DecidableEq, Repr

/-- Lookup in a Python dict modelled as an association list. -/
def dictLookup (d : List (String × ℚ)) (k : String) : Option ℚ :=
  match d with
  | [] => none
  | (k₁, v) :: t => if k₁ = k then some v else dictLookup t k

/-- Python `d.get(k, default)`. -/
def dictGet (d : List (String × ℚ)) (k : String) (default : ℚ) : ℚ :=
  (dictLookup d k).getD default

/-- Python `d[k] = v`: replace the value of an existing key in place,
otherwise append the new key at the end. -/
def dictSet (d : List (String × ℚ)) (k : String) (v : ℚ) :
    List (String × ℚ) :=
  match d with
  | [] => [(k, v)]
  | (k₁, v₁) :: t => if k₁ = k then (k₁, v) :: t else (k₁, v₁) :: dictSet t k v

/-- The aggregation loop of app.py:177-182 (identically main.py:176-181):
`spend_by_category[category] = spend_by_category.get(category, 0) + amount`
for each record in order, starting from the empty dict. -/
def spendByCategory (records : List Record) : List (String × ℚ) :=
  records.foldl
    (fun d r => dictSet d r.category (dictGet d r.category 0 + r.amount)) []

/-- The arithmetic sum of the amounts of the records bearing category `c`. -/
def totalFor (c : String) (records : List Record) : ℚ :=
  ((records.filter (fun r => r.category = c)).map Record.amount).sum

/-- The spec's wording of the marker encoding rule (§4.1): map each
character c to two copies of c when c is not a space, and to a single
space when c is a space.  Stated independently of the code's loop so that
the two can be compared. -/
def encodeSpec : Str → Str
  | [] => []
  | c :: rest => (if c = ' ' then [' '] else [c, c]) ++ encodeSpec rest

/-- `extract_transactions` as a method on mutable object state: the body
reads `self.formatted_start_marker` and `self.stop_marker` and contains no
attribute assignment, so it is embedded in the state monad over the
extractor's fields (transaction_extractor.py:61-90). -/
def extract_transactionsM (text : Str) :
    StateM TransactionExtractor (Except String Str) := do
  let self ← get
  match strFind text self.formatted_start_marker with
  | none => pure (.error startMarkerError)
  | some title_pos =>
    let text_after_start := text.drop title_pos
    match strFind text_after_start self.stop_marker with
    | none => pure (.error stopMarkerError)
    | some stop_pos => pure (.ok (pyStrip (text_after_start.take stop_pos)))

/-- `extract_purchases` as a method on mutable object state
(transaction_extractor.py:92-159). -/
def extract_purchasesM (text : Str) :
    StateM TransactionExtractor (Except String Str) := do
  let r ← extract_transactionsM text
  match r with
  | .error msg => pure (.error msg)
  | .ok all_transactions =>
    match strFind all_transactions purchaseToken with
    | none => pure (.error purchaseError)
    | some title_pos => pure (.ok (all_transactions.drop title_pos))

example : formatStartMarker "AB CD".data = "AABB CCDD".data := by decide

example : strFind "hello".data "ll".data = some 2 := by decide

example : strFind "hello".data "x".data = none := by decide

example : strFind "".data "".data = some 0 := by decide

example : pyStrip "  a b \n".data = "a b".data := by decide

example :
    extract_transactions (TransactionExtractor.make "AB".data "STOP".data)
      "xAABB mid STOPy".data = .ok "AABB mid".data := by rfl

example :
    extract_purchases (TransactionExtractor.make "AB".data "STOP".data)
      "AABB PURCHASEfooPURCHASEbar STOP".data =
      .ok "PURCHASEfooPURCHASEbar".data := by rfl

/-! ### Properties of `strFind` (Python `str.find`) -/

theorem occursAt_zero {pat s : Str} : occursAt pat s 0 ↔ pat.isPrefixOf s = true := by
  simp [occursAt]

theorem occursAt_succ_cons {pat : Str} {a : Char} {t : Str} {k : Nat} :
    occursAt pat (a :: t) (k + 1) ↔ occursAt pat t k := by
  simp [occursAt, List.drop_succ_cons]

/-- Unfolding equation: a successful prefix test answers index 0. -/
theorem strFind_of_isPrefixOf {pat s : Str} (hp : pat.isPrefixOf s = true) :
    strFind s pat = some 0 := by
  unfold strFind
  rw [if_pos hp]

/-- Unfolding equation: a failed prefix test on the empty text gives `none`. -/
theorem strFind_nil_of_not_isPrefixOf {pat : Str}
    (hp : ¬ pat.isPrefixOf ([] : Str) = true) : strFind [] pat = none := by
  unfold strFind
  rw [if_neg hp]

/-- Unfolding equation: a failed prefix test recurses on the tail. -/
theorem strFind_cons_of_not_isPrefixOf {pat : Str} {a : Char} {t : Str}
    (hp : ¬ pat.isPrefixOf (a :: t) = true) :
    strFind (a :: t) pat = (strFind t pat).map (· + 1) := by
  conv_lhs => unfold strFind
  rw [if_neg hp]

/-- `strFind s pat = some n` means `pat` occurs at `n` and at no earlier index. -/
theorem strFind_some_spec {s pat : Str} {n : Nat} (h : strFind s pat = some n) :
    occursAt pat s n ∧ ∀ m, m < n → ¬ occursAt pat s m := by
  induction s generalizing n with
  | nil =>
    by_cases hp : pat.isPrefixOf ([] : Str) = true
    · rw [strFind_of_isPrefixOf hp] at h
      cases h
      refine ⟨occursAt_zero.mpr hp, ?_⟩
      intro m hm
      omega
    · rw [strFind_nil_of_not_isPrefixOf hp] at h
      cases h
  | cons a t ih =>
    by_cases hp : pat.isPrefixOf (a :: t) = true
    · rw [strFind_of_isPrefixOf hp] at h
      cases h
      refine ⟨occursAt_zero.mpr hp, ?_⟩
      intro m hm
      omega
    · rw [strFind_cons_of_not_isPrefixOf hp] at h
      cases hft : strFind t pat with
      | none => rw [hft] at h; cases h
      | some n₀ =>
        rw [hft] at h
        simp only [Option.map_some'] at h
        cases h
        obtain ⟨h1, h2⟩ := ih hft
        refine ⟨occursAt_succ_cons.mpr h1, ?_⟩
        intro m hm
        cases m with
        | zero => exact fun hc => hp (occursAt_zero.mp hc)
        | succ m₁ => exact fun hc => h2 m₁ (by omega) (occursAt_succ_cons.mp hc)

/-- If `pat` occurs somewhere in `s`, `strFind` finds an index no later. -/
theorem strFind_some_of_occursAt {s pat : Str} {k : Nat} (h : occursAt pat s k) :
    ∃ n, strFind s pat = some n ∧ n ≤ k := by
  induction s generalizing k with
  | nil =>
    refine ⟨0, ?_, Nat.zero_le k⟩
    have hp : pat.isPrefixOf ([] : Str) = true := by
      simpa [occursAt, List.drop_nil] using h
    exact strFind_of_isPrefixOf hp
  | cons a t ih =>
    by_cases hp : pat.isPrefixOf (a :: t) = true
    · exact ⟨0, strFind_of_isPrefixOf hp, Nat.zero_le k⟩
    · have hk0 : k ≠ 0 := by
        rintro rfl
        exact hp (occursAt_zero.mp h)
      obtain ⟨k₁, rfl⟩ : ∃ k₁, k = k₁ + 1 := ⟨k - 1, by omega⟩
      obtain ⟨n₀, hn₀, hle⟩ := ih (occursAt_succ_cons.mp h)
      refine ⟨n₀ + 1, ?_, by omega⟩
      rw [strFind_cons_of_not_isPrefixOf hp, hn₀]
      rfl

/-- If `strFind` fails, `pat` occurs nowhere in `s`. -/
theorem not_occursAt_of_strFind_none {s pat : Str} (h : strFind s pat = none)
    (k : Nat) : ¬ occursAt pat s k := by
  intro hk
  obtain ⟨n, hn, _⟩ := strFind_some_of_occursAt hk
  rw [h] at hn
  cases hn

/-- `strFind` returns exactly the first occurrence index. -/
theorem strFind_eq_first {s pat : Str} {i : Nat} (h : occursAt pat s i)
    (hmin : ∀ m, m < i → ¬ occursAt pat s m) : strFind s pat = some i := by
  obtain ⟨n, hn, hle⟩ := strFind_some_of_occursAt h
  obtain ⟨h1, _⟩ := strFind_some_spec hn
  have : n = i := by
    by_contra hne
    exact hmin n (by omega) h1
  rw [hn, this]

/-! ### Bridging the boolean prefix test and the prefix order -/

theorem isPrefixOf_eq {l₁ l₂ : Str} : l₁.isPrefixOf l₂ = true ↔ l₁ <+: l₂ := by
  induction l₁ generalizing l₂ with
  | nil =>
    constructor
    · intro _
      exact ⟨l₂, rfl⟩
    · intro _
      cases l₂ <;> rfl
  | cons a t ih =>
    cases l₂ with
    | nil => simp [List.isPrefixOf, List.prefix_nil]
    | cons b s => simp [List.isPrefixOf, List.cons_prefix_cons, ih]

theorem take_isPrefix (n : Nat) (l : Str) : l.take n <+: l :=
  ⟨l.drop n, List.take_append_drop n l⟩

theorem reverse_isPrefix_of_suffix_reverse {x m : Str} (h : x <:+ m.reverse) :
    x.reverse <+: m := by
  obtain ⟨u, hu⟩ := h
  refine ⟨u.reverse, ?_⟩
  have hr := congrArg List.reverse hu
  rw [List.reverse_append, List.reverse_reverse] at hr
  exact hr

/-! ### Occurrences under `drop`, `take` and `strip` -/

theorem occursAt_drop_iff {pat s : Str} {i m : Nat} :
    occursAt pat (s.drop i) m ↔ occursAt pat s (i + m) := by
  unfold occursAt
  rw [List.drop_drop]

theorem occursAt_lt_length {pat s : Str} {k : Nat} (h : occursAt pat s k)
    (hp : pat ≠ []) : k < s.length := by
  have hpre : pat <+: s.drop k := isPrefixOf_eq.mp h
  have hlen : pat.length ≤ s.length - k := by
    simpa [List.length_drop] using hpre.length_le
  have hpos : 0 < pat.length := List.length_pos.mpr hp
  omega

theorem occursAt_take {pat s : Str} {j m : Nat} (hp : pat ≠ [])
    (h : occursAt pat (s.take j) m) : occursAt pat s m ∧ m < j := by
  have hpre : pat <+: (s.take j).drop m := isPrefixOf_eq.mp h
  have hm : m < (s.take j).length := occursAt_lt_length h hp
  rw [List.drop_take] at hpre
  refine ⟨isPrefixOf_eq.mpr (hpre.trans (take_isPrefix _ _)), ?_⟩
  rw [List.length_take] at hm
  omega

theorem infix_of_occursAt {pat s : Str} {m : Nat} (h : occursAt pat s m) :
    pat <:+: s :=
  (isPrefixOf_eq.mp h).isInfix.trans (List.drop_suffix m s).isInfix

theorem exists_occursAt_of_infix {pat s : Str} (h : pat <:+: s) :
    ∃ m, occursAt pat s m := by
  obtain ⟨t, hpt, hts⟩ := List.infix_iff_prefix_suffix.mp h
  refine ⟨s.length - t.length, isPrefixOf_eq.mpr ?_⟩
  rw [List.suffix_iff_eq_drop] at hts
  rw [← hts]
  exact hpt

theorem pyStrip_shrinks (s : Str) : pyStrip s <:+: s := by
  unfold pyStrip
  have h1 : s.dropWhile isPyWhitespace <:+ s := List.dropWhile_suffix _
  have h2 : (s.dropWhile isPyWhitespace).reverse.dropWhile isPyWhitespace <:+
      (s.dropWhile isPyWhitespace).reverse := List.dropWhile_suffix _
  have h3 := reverse_isPrefix_of_suffix_reverse h2
  exact h3.isInfix.trans h1.isInfix

/-- The extracted transactions slice never contains the stop marker: the
slice ends just before its first occurrence. -/
theorem no_stop_in_slice {s stop : Str} {j : Nat} (hj : strFind s stop = some j)
    (hstop : stop ≠ []) (m : Nat) : ¬ occursAt stop (pyStrip (s.take j)) m := by
  intro hm
  have hinf : stop <:+: s.take j := (infix_of_occursAt hm).trans (pyStrip_shrinks _)
  obtain ⟨m', hm'⟩ := exists_occursAt_of_infix hinf
  obtain ⟨hms, hmj⟩ := occursAt_take hstop hm'
  exact (strFind_some_spec hj).2 m' hmj hms

/-! ### Unfolding equations for the two extraction operations -/

theorem extract_transactions_error_start {e : TransactionExtractor} {text : Str}
    (h : strFind text e.formatted_start_marker = none) :
    extract_transactions e text = .error startMarkerError := by
  unfold extract_transactions
  rw [h]

theorem extract_transactions_error_stop {e : TransactionExtractor} {text : Str}
    {i : Nat} (hi : strFind text e.formatted_start_marker = some i)
    (hs : strFind (text.drop i) e.stop_marker = none) :
    extract_transactions e text = .error stopMarkerError := by
  unfold extract_transactions
  rw [hi]
  dsimp only
  rw [hs]

theorem extract_transactions_ok {e : TransactionExtractor} {text : Str}
    {i j : Nat} (hi : strFind text e.formatted_start_marker = some i)
    (hj : strFind (text.drop i) e.stop_marker = some j) :
    extract_transactions e text = .ok (pyStrip ((text.drop i).take j)) := by
  unfold extract_transactions
  rw [hi]
  dsimp only
  rw [hj]

theorem extract_purchases_error_propagate {e : TransactionExtractor}
    {text : Str} {msg : String}
    (h : extract_transactions e text = .error msg) :
    extract_purchases e text = .error msg := by
  unfold extract_purchases
  rw [h]

theorem extract_purchases_error_purchase {e : TransactionExtractor}
    {text : Str} {t : Str} (ht : extract_transactions e text = .ok t)
    (hp : strFind t purchaseToken = none) :
    extract_purchases e text = .error purchaseError := by
  unfold extract_purchases
  rw [ht]
  dsimp only
  rw [hp]

theorem extract_purchases_ok {e : TransactionExtractor} {text : Str}
    {t : Str} {p : Nat} (ht : extract_transactions e text = .ok t)
    (hp : strFind t purchaseToken = some p) :
    extract_purchases e text = .ok (t.drop p) := by
  unfold extract_purchases
  rw [ht]
  dsimp only
  rw [hp]

/-! ### The encoding loop computes the spec's per-character map -/

theorem formatStartMarker_foldl (sm acc : Str) :
    sm.foldl (fun acc c => if c ≠ ' ' then acc ++ [c, c] else acc ++ [c]) acc =
      acc ++ encodeSpec sm := by
  induction sm generalizing acc with
  | nil => simp [encodeSpec]
  | cons c t ih =>
    rw [List.foldl_cons, ih]
    by_cases hc : c = ' '
    · subst hc
      simp [encodeSpec]
    · simp [encodeSpec, hc]

/-! ### The state-passing methods leave the extractor unchanged -/

theorem extract_transactionsM_run (text : Str) (e : TransactionExtractor) :
    (extract_transactionsM text).run e = (extract_transactions e text, e) := by
  show (match strFind text e.formatted_start_marker with
    | none => pure (Except.error startMarkerError)
    | some title_pos =>
      let text_after_start := text.drop title_pos
      match strFind text_after_start e.stop_marker with
      | none => pure (.error stopMarkerError)
      | some stop_pos => pure (.ok (pyStrip (text_after_start.take stop_pos))) :
      StateM TransactionExtractor (Except String Str)).run e =
    (extract_transactions e text, e)
  cases h1 : strFind text e.formatted_start_marker with
  | none => simp [extract_transactions, h1, StateT.run, pure, StateT.pure]
  | some i =>
    cases h2 : strFind (text.drop i) e.stop_marker with
    | none => simp [extract_transactions, h1, h2, StateT.run, pure, StateT.pure]
    | some j => simp [extract_transactions, h1, h2, StateT.run, pure, StateT.pure]

theorem extract_purchasesM_run (text : Str) (e : TransactionExtractor) :
    (extract_purchasesM text).run e = (extract_purchases e text, e) := by
  have h : (extract_transactionsM text).run e = (extract_transactions e text, e) :=
    extract_transactionsM_run text e
  show (fun q : Except String Str × TransactionExtractor =>
      ((match q.1 with
        | .error msg => pure (.error msg)
        | .ok all_transactions =>
          match strFind all_transactions purchaseToken with
          | none => pure (.error purchaseError)
          | some title_pos => pure (.ok (all_transactions.drop title_pos)) :
        StateM TransactionExtractor (Except String Str))).run q.2)
      ((extract_transactionsM text).run e) = (extract_purchases e text, e)
  rw [h]
  cases h1 : extract_transactions e text with
  | error msg => simp [extract_purchases, h1, StateT.run, pure, StateT.pure]
  | ok t =>
    cases h2 : strFind t purchaseToken with
    | none => simp [extract_purchases, h1, h2, StateT.run, pure, StateT.pure]
    | some p => simp [extract_purchases, h1, h2, StateT.run, pure, StateT.pure]

/-! ### Claim theorems -/

/-- C1: for every text in which the formatted start marker occurs, with the
stop marker occurring at or after its first occurrence index `i`,
`extract_transactions` returns the substring of the text beginning at `i`
and ending just before the first subsequent stop-marker index, trimmed of
whitespace; the earliest occurrence in the relevant slice is the one used. -/
theorem extract_transactions_first_window
    (e : TransactionExtractor) (text : Str) (i k : Nat)
    (hi : occursAt e.formatted_start_marker text i)
    (hfirst : ∀ m, m < i → ¬ occursAt e.formatted_start_marker text m)
    (hk : occursAt e.stop_marker text k) (hik : i ≤ k) :
    ∃ j, i ≤ j ∧ occursAt e.stop_marker text j ∧
      (∀ m, i ≤ m → occursAt e.stop_marker text m → j ≤ m) ∧
      extract_transactions e text = .ok (pyStrip (pySlice text i j)) := by
  have hfind : strFind text e.formatted_start_marker = some i :=
    strFind_eq_first hi hfirst
  have hk' : occursAt e.stop_marker (text.drop i) (k - i) := by
    rw [occursAt_drop_iff]
    have hik' : i + (k - i) = k := by omega
    rw [hik']
    exact hk
  obtain ⟨j', hj', _⟩ := strFind_some_of_occursAt hk'
  obtain ⟨hj'occ, hj'min⟩ := strFind_some_spec hj'
  refine ⟨i + j', by omega, occursAt_drop_iff.mp hj'occ, ?_, ?_⟩
  · intro m him hm
    have hm' : occursAt e.stop_marker (text.drop i) (m - i) := by
      rw [occursAt_drop_iff]
      have him' : i + (m - i) = m := by omega
      rw [him']
      exact hm
    by_contra hlt
    exact hj'min (m - i) (by omega) hm'
  · rw [extract_transactions_ok hfind hj']
    unfold pySlice
    rw [List.drop_take]
    have harith : i + j' - i = j' := by omega
    rw [harith]

theorem extract_transactions_first_window_witness :
    occursAt (TransactionExtractor.make "AB".data "STOP".data).formatted_start_marker
      "xAABB mid STOPy".data 1 ∧
    (∀ m, m < 1 →
      ¬ occursAt (TransactionExtractor.make "AB".data "STOP".data).formatted_start_marker
        "xAABB mid STOPy".data m) ∧
    occursAt (TransactionExtractor.make "AB".data "STOP".data).stop_marker
      "xAABB mid STOPy".data 10 ∧ 1 ≤ 10 ∧
    (∃ j, 1 ≤ j ∧
      occursAt (TransactionExtractor.make "AB".data "STOP".data).stop_marker
        "xAABB mid STOPy".data j ∧
      (∀ m, 1 ≤ m →
        occursAt (TransactionExtractor.make "AB".data "STOP".data).stop_marker
          "xAABB mid STOPy".data m → j ≤ m) ∧
      extract_transactions (TransactionExtractor.make "AB".data "STOP".data)
        "xAABB mid STOPy".data = .ok (pyStrip (pySlice "xAABB mid STOPy".data 1 j))) :=
  ⟨by decide, by decide, by decide, by decide,
    extract_transactions_first_window (TransactionExtractor.make "AB".data "STOP".data)
      "xAABB mid STOPy".data 1 10 (by decide) (by decide) (by decide) (by decide)⟩

/-- C3: the formatted start marker computed at construction equals the
per-character spec encoding (double every non-space character, keep each
space as a single space). -/
theorem formatted_start_marker_eq_encodeSpec (sm stop_m : Str) :
    (TransactionExtractor.make sm stop_m).formatted_start_marker = encodeSpec sm := by
  show formatStartMarker sm = encodeSpec sm
  unfold formatStartMarker
  simpa using formatStartMarker_foldl sm []

/-- C4 counterexample: the spec's worked example is wrong on the code: the
extractor built from "AB CD" does not have formatted start marker
"AABB  CCDD" (two consecutive spaces); spaces are kept single. -/
theorem encode_example_counterexample :
    (TransactionExtractor.make "AB CD".data "Totals Year-to-Date".data).formatted_start_marker ≠
      "AABB  CCDD".data := by
  decide

/-- C4 (amended): the marker encoding applied to "AB CD" yields
"AABB CCDD" with a single space between the doubled pairs; the result
contains no two consecutive spaces. -/
theorem encode_example_amended :
    (TransactionExtractor.make "AB CD".data "Totals Year-to-Date".data).formatted_start_marker =
      "AABB CCDD".data ∧
    strFind "AABB CCDD".data (' ' :: ' ' :: []) = none := by
  constructor
  · decide
  · decide

/-- C2 counterexample: on the constructed document
filler ++ encode(start) ++ middle ++ stop ++ trailing, with the markers
absent from filler, middle and trailing, `extract_transactions` does not
return the trimmed middle content: the encoded start marker is part of the
returned text. -/
theorem roundtrip_counterexample :
    ¬ (formatStartMarker "AB".data <:+: "x".data) ∧
    ¬ (formatStartMarker "AB".data <:+: " mid ".data) ∧
    ¬ (formatStartMarker "AB".data <:+: "y".data) ∧
    ¬ ("STOP".data <:+: "x".data) ∧
    ¬ ("STOP".data <:+: " mid ".data) ∧
    ¬ ("STOP".data <:+: "y".data) ∧
    extract_transactions (TransactionExtractor.make "AB".data "STOP".data)
      ("x".data ++ (formatStartMarker "AB".data ++
        (" mid ".data ++ ("STOP".data ++ "y".data)))) = .ok "AABB mid".data ∧
    "AABB mid".data ≠ pyStrip " mid ".data := by
  refine ⟨by decide, by decide, by decide, by decide, by decide, by decide, by rfl, by decide⟩

/-- C2 (amended): on the constructed document
filler ++ encode(start_marker) ++ middle ++ stop_marker ++ trailing, where
the encoded start marker does not occur before the end of the filler and
the stop marker does not occur before its own segment,
`extract_transactions` returns encode(start_marker) ++ middle trimmed of
whitespace — the returned text includes the encoded start marker itself. -/
theorem roundtrip_amended (sm stop_m filler middle trailing : Str)
    (hstart : ∀ m, m < filler.length →
      ¬ occursAt (formatStartMarker sm)
        (filler ++ (formatStartMarker sm ++ (middle ++ (stop_m ++ trailing)))) m)
    (hstop : ∀ m, m < (formatStartMarker sm).length + middle.length →
      ¬ occursAt stop_m
        (formatStartMarker sm ++ (middle ++ (stop_m ++ trailing))) m) :
    extract_transactions (TransactionExtractor.make sm stop_m)
      (filler ++ (formatStartMarker sm ++ (middle ++ (stop_m ++ trailing)))) =
      .ok (pyStrip (formatStartMarker sm ++ middle)) := by
  have hocc : occursAt (formatStartMarker sm)
      (filler ++ (formatStartMarker sm ++ (middle ++ (stop_m ++ trailing))))
      filler.length := by
    unfold occursAt
    rw [List.drop_left]
    exact isPrefixOf_eq.mpr (List.prefix_append _ _)
  have hfind1 : strFind
      (filler ++ (formatStartMarker sm ++ (middle ++ (stop_m ++ trailing))))
      (formatStartMarker sm) = some filler.length :=
    strFind_eq_first hocc hstart
  have hsplit : (formatStartMarker sm ++ (middle ++ (stop_m ++ trailing))).drop
      ((formatStartMarker sm).length + middle.length) = stop_m ++ trailing := by
    rw [← List.append_assoc, ← List.length_append]
    exact List.drop_left _ _
  have hocc2 : occursAt stop_m
      (formatStartMarker sm ++ (middle ++ (stop_m ++ trailing)))
      ((formatStartMarker sm).length + middle.length) := by
    unfold occursAt
    rw [hsplit]
    exact isPrefixOf_eq.mpr (List.prefix_append _ _)
  have hfind2 : strFind (formatStartMarker sm ++ (middle ++ (stop_m ++ trailing)))
      stop_m = some ((formatStartMarker sm).length + middle.length) :=
    strFind_eq_first hocc2 hstop
  have hdrop : (filler ++ (formatStartMarker sm ++ (middle ++ (stop_m ++ trailing)))).drop
      filler.length = formatStartMarker sm ++ (middle ++ (stop_m ++ trailing)) :=
    List.drop_left _ _
  have hfind2' : strFind
      ((filler ++ (formatStartMarker sm ++ (middle ++ (stop_m ++ trailing)))).drop
        filler.length) stop_m = some ((formatStartMarker sm).length + middle.length) := by
    rw [hdrop]
    exact hfind2
  rw [extract_transactions_ok hfind1 hfind2', hdrop]
  have htake : (formatStartMarker sm ++ (middle ++ (stop_m ++ trailing))).take
      ((formatStartMarker sm).length + middle.length) =
      formatStartMarker sm ++ middle := by
    rw [← List.append_assoc, ← List.length_append]
    exact List.take_left _ _
  rw [htake]

theorem roundtrip_amended_witness :
    (∀ m, m < ("x".data : Str).length →
      ¬ occursAt (formatStartMarker "AB".data)
        ("x".data ++ (formatStartMarker "AB".data ++
          (" mid ".data ++ ("STOP".data ++ "y".data)))) m) ∧
    (∀ m, m < (formatStartMarker "AB".data).length + (" mid ".data : Str).length →
      ¬ occursAt "STOP".data
        (formatStartMarker "AB".data ++ (" mid ".data ++ ("STOP".data ++ "y".data))) m) ∧
    extract_transactions (TransactionExtractor.make "AB".data "STOP".data)
      ("x".data ++ (formatStartMarker "AB".data ++
        (" mid ".data ++ ("STOP".data ++ "y".data)))) =
      .ok (pyStrip (formatStartMarker "AB".data ++ " mid ".data)) :=
  ⟨by decide, by decide,
    roundtrip_amended "AB".data "STOP".data "x".data " mid ".data "y".data
      (by decide) (by decide)⟩

/-- C5: `extract_purchases` first runs `extract_transactions` and
propagates its failure unchanged; when that succeeds and "PURCHASE" occurs
in the result, it returns the suffix of the transactions text from the
first occurrence of "PURCHASE" onward, with no additional trimming. -/
theorem extract_purchases_behavior (e : TransactionExtractor) (text : Str) :
    (∀ msg, extract_transactions e text = .error msg →
      extract_purchases e text = .error msg) ∧
    (∀ t p, extract_transactions e text = .ok t →
      occursAt purchaseToken t p →
      (∀ m, m < p → ¬ occursAt purchaseToken t m) →
      extract_purchases e text = .ok (t.drop p)) := by
  constructor
  · intro msg h
    exact extract_purchases_error_propagate h
  · intro t p ht hp hmin
    exact extract_purchases_ok ht (strFind_eq_first hp hmin)

theorem extract_purchases_behavior_witness :
    extract_purchases (TransactionExtractor.make "AB".data "STOP".data)
      "AABB PURCHASEfooPURCHASEbar STOP".data =
      .ok "PURCHASEfooPURCHASEbar".data ∧
    extract_purchases (TransactionExtractor.make "AB".data "STOP".data)
      "zzz".data = .error startMarkerError := by
  constructor
  · have h := (extract_purchases_behavior
      (TransactionExtractor.make "AB".data "STOP".data)
      "AABB PURCHASEfooPURCHASEbar STOP".data).2
      "AABB PURCHASEfooPURCHASEbar".data 5 (by rfl) (by decide) (by decide)
    exact h
  · exact (extract_purchases_behavior
      (TransactionExtractor.make "AB".data "STOP".data) "zzz".data).1
      startMarkerError (by rfl)

/-- C6: when the formatted start marker occurs nowhere in the text,
`extract_transactions` fails with the error naming the start marker; when
it occurs first at index `i` but the stop marker has no occurrence at or
after `i`, it fails with the error naming the stop marker; when
`extract_purchases` finds no "PURCHASE" in the transactions text it fails
with the error naming "PURCHASE"; the three error messages are pairwise
distinct, so each failure identifies which marker could not be located. -/
theorem marker_not_found_errors (e : TransactionExtractor) (text : Str) :
    ((∀ k, ¬ occursAt e.formatted_start_marker text k) →
      extract_transactions e text = .error startMarkerError) ∧
    (∀ i, occursAt e.formatted_start_marker text i →
      (∀ m, m < i → ¬ occursAt e.formatted_start_marker text m) →
      (∀ k, i ≤ k → ¬ occursAt e.stop_marker text k) →
      extract_transactions e text = .error stopMarkerError) ∧
    (∀ t, extract_transactions e text = .ok t →
      (∀ k, ¬ occursAt purchaseToken t k) →
      extract_purchases e text = .error purchaseError) ∧
    startMarkerError ≠ stopMarkerError ∧ startMarkerError ≠ purchaseError ∧
    stopMarkerError ≠ purchaseError := by
  refine ⟨?_, ?_, ?_, by decide, by decide, by decide⟩
  · intro h
    apply extract_transactions_error_start
    cases hf : strFind text e.formatted_start_marker with
    | none => rfl
    | some n => exact absurd (strFind_some_spec hf).1 (h n)
  · intro i hi hmin hstop
    apply extract_transactions_error_stop (strFind_eq_first hi hmin)
    cases hf : strFind (text.drop i) e.stop_marker with
    | none => rfl
    | some j =>
      exact absurd (occursAt_drop_iff.mp (strFind_some_spec hf).1)
        (hstop (i + j) (by omega))
  · intro t ht h
    apply extract_purchases_error_purchase ht
    cases hf : strFind t purchaseToken with
    | none => rfl
    | some p => exact absurd (strFind_some_spec hf).1 (h p)

theorem marker_not_found_errors_witness :
    extract_transactions (TransactionExtractor.make "AB".data "STOP".data)
      "hello".data = .error startMarkerError ∧
    extract_transactions (TransactionExtractor.make "AB".data "STOP".data)
      "AABBhello".data = .error stopMarkerError ∧
    extract_purchases (TransactionExtractor.make "AB".data "STOP".data)
      "AABBfoo STOP".data = .error purchaseError := by
  refine ⟨?_, ?_, ?_⟩
  · exact (marker_not_found_errors (TransactionExtractor.make "AB".data "STOP".data)
      "hello".data).1
      (fun k hk =>
        (by decide : ∀ m, m < 5 →
          ¬ occursAt (TransactionExtractor.make "AB".data "STOP".data).formatted_start_marker
            "hello".data m) k (occursAt_lt_length hk (by decide)) hk)
  · exact (marker_not_found_errors (TransactionExtractor.make "AB".data "STOP".data)
      "AABBhello".data).2.1 0 (by decide) (by decide)
      (fun k _ hk =>
        (by decide : ∀ m, m < 9 →
          ¬ occursAt (TransactionExtractor.make "AB".data "STOP".data).stop_marker
            "AABBhello".data m) k (occursAt_lt_length hk (by decide)) hk)
  · exact (marker_not_found_errors (TransactionExtractor.make "AB".data "STOP".data)
      "AABBfoo STOP".data).2.2.1 "AABBfoo".data (by rfl)
      (fun k hk =>
        (by decide : ∀ m, m < 7 → ¬ occursAt purchaseToken "AABBfoo".data m)
          k (occursAt_lt_length hk (by decide)) hk)

/-- C9: neither extraction method changes any field of the extractor state
(the state after running equals the state before), the value each method
returns is the pure function of the text and the extractor's fields, and
construction stores the two markers verbatim with the formatted start
marker computed once from the start marker. -/
theorem extractor_state_unchanged (e : TransactionExtractor)
    (text sm stop_m : Str) :
    ((extract_transactionsM text).run e).2 = e ∧
    ((extract_purchasesM text).run e).2 = e ∧
    ((extract_transactionsM text).run e).1 = extract_transactions e text ∧
    ((extract_purchasesM text).run e).1 = extract_purchases e text ∧
    (TransactionExtractor.make sm stop_m).start_marker = sm ∧
    (TransactionExtractor.make sm stop_m).stop_marker = stop_m ∧
    (TransactionExtractor.make sm stop_m).formatted_start_marker =
      formatStartMarker sm := by
  refine ⟨?_, ?_, ?_, ?_, rfl, rfl, rfl⟩
  · rw [extract_transactionsM_run]
  · rw [extract_purchasesM_run]
  · rw [extract_transactionsM_run]
  · rw [extract_purchasesM_run]

/-- C10: whenever `extract_purchases` succeeds, its result begins with the
literal "PURCHASE", is a suffix (hence a contiguous substring) of the
transactions text returned by `extract_transactions`, and the stop marker
occurs nowhere in it. -/
theorem extract_purchases_result_invariants (e : TransactionExtractor)
    (text p : Str) (h : extract_purchases e text = .ok p) :
    purchaseToken.isPrefixOf p = true ∧
    (∃ t, extract_transactions e text = .ok t ∧ p <:+ t) ∧
    (∀ m, ¬ occursAt e.stop_marker p m) := by
  cases ht : extract_transactions e text with
  | error msg => rw [extract_purchases_error_propagate ht] at h; cases h
  | ok t =>
    cases hf : strFind t purchaseToken with
    | none => rw [extract_purchases_error_purchase ht hf] at h; cases h
    | some pos =>
      rw [extract_purchases_ok ht hf] at h
      injection h with h
      subst h
      refine ⟨(strFind_some_spec hf).1, ⟨t, rfl, List.drop_suffix _ _⟩, ?_⟩
      intro m hm
      have hocc : occursAt e.stop_marker t (pos + m) := occursAt_drop_iff.mp hm
      cases h1 : strFind text e.formatted_start_marker with
      | none => rw [extract_transactions_error_start h1] at ht; cases ht
      | some i =>
        cases h2 : strFind (text.drop i) e.stop_marker with
        | none => rw [extract_transactions_error_stop h1 h2] at ht; cases ht
        | some j =>
          rw [extract_transactions_ok h1 h2] at ht
          injection ht with ht
          by_cases hstop : e.stop_marker = []
          · have hzero : strFind (text.drop i) ([] : Str) = some 0 :=
              strFind_of_isPrefixOf (by simp [List.isPrefixOf])
            rw [hstop, hzero] at h2
            injection h2 with h2
            rw [← h2] at ht
            have htnil : t = [] := by
              rw [← ht]
              rfl
            rw [htnil] at hf
            have : strFind ([] : Str) purchaseToken = none := by decide
            rw [this] at hf
            cases hf
          · rw [← ht] at hocc
            exact no_stop_in_slice h2 hstop (pos + m) hocc

theorem extract_purchases_result_invariants_witness :
    purchaseToken.isPrefixOf "PURCHASEfooPURCHASEbar".data = true ∧
    (∃ t, extract_transactions (TransactionExtractor.make "AB".data "STOP".data)
      "AABB PURCHASEfooPURCHASEbar STOP".data = .ok t ∧
      "PURCHASEfooPURCHASEbar".data <:+ t) ∧
    (∀ m, ¬ occursAt (TransactionExtractor.make "AB".data "STOP".data).stop_marker
      "PURCHASEfooPURCHASEbar".data m) :=
  extract_purchases_result_invariants
    (TransactionExtractor.make "AB".data "STOP".data)
    "AABB PURCHASEfooPURCHASEbar STOP".data
    "PURCHASEfooPURCHASEbar".data (by rfl)

/-! ### Dict lemmas for the aggregation loop -/

theorem dictLookup_set_self (d : List (String × ℚ)) (k : String) (v : ℚ) :
    dictLookup (dictSet d k v) k = some v := by
  induction d with
  | nil => simp [dictSet, dictLookup]
  | cons hd t ih =>
    obtain ⟨k₁, v₁⟩ := hd
    by_cases hk : k₁ = k
    · subst hk
      simp [dictSet, dictLookup]
    · simp [dictSet, dictLookup, hk, ih]

theorem dictLookup_cons (k₁ : String) (v₁ : ℚ) (t : List (String × ℚ))
    (c : String) :
    dictLookup ((k₁, v₁) :: t) c = if k₁ = c then some v₁ else dictLookup t c :=
  rfl

theorem dictLookup_set_ne (d : List (String × ℚ)) (k k' : String) (v : ℚ)
    (h : k' ≠ k) : dictLookup (dictSet d k v) k' = dictLookup d k' := by
  induction d with
  | nil => simp [dictSet, dictLookup, Ne.symm h]
  | cons hd t ih =>
    obtain ⟨k₁, v₁⟩ := hd
    by_cases hk : k₁ = k
    · subst hk
      simp [dictSet, dictLookup, Ne.symm h]
    · simp [dictSet, dictLookup, hk, ih]

theorem dictGet_set_self (d : List (String × ℚ)) (k : String) (v : ℚ) :
    dictGet (dictSet d k v) k 0 = v := by
  unfold dictGet
  rw [dictLookup_set_self]
  rfl

theorem dictGet_set_ne (d : List (String × ℚ)) (k k' : String) (v : ℚ)
    (h : k' ≠ k) : dictGet (dictSet d k v) k' 0 = dictGet d k' 0 := by
  unfold dictGet
  rw [dictLookup_set_ne d k k' v h]

theorem mem_keys_set (d : List (String × ℚ)) (k c : String) (v : ℚ) :
    c ∈ (dictSet d k v).map Prod.fst ↔ c ∈ d.map Prod.fst ∨ c = k := by
  induction d with
  | nil => simp [dictSet]
  | cons hd t ih =>
    obtain ⟨k₁, v₁⟩ := hd
    by_cases hk : k₁ = k
    · subst hk
      simp [dictSet, List.mem_cons]
      tauto
    · simp [dictSet, hk, List.mem_cons, ih]
      tauto

theorem nodup_keys_set (d : List (String × ℚ)) (k : String) (v : ℚ)
    (h : (d.map Prod.fst).Nodup) : ((dictSet d k v).map Prod.fst).Nodup := by
  induction d with
  | nil => simp [dictSet]
  | cons hd t ih =>
    obtain ⟨k₁, v₁⟩ := hd
    by_cases hk : k₁ = k
    · subst hk
      simpa [dictSet] using h
    · simp only [dictSet, if_neg hk, List.map_cons, List.nodup_cons] at h ⊢
      refine ⟨?_, ih h.2⟩
      rw [mem_keys_set]
      push_neg
      exact ⟨h.1, hk⟩

theorem dictLookup_eq_ite (d : List (String × ℚ)) (c : String) :
    dictLookup d c =
      if c ∈ d.map Prod.fst then some (dictGet d c 0) else none := by
  induction d with
  | nil => simp [dictLookup]
  | cons hd t ih =>
    obtain ⟨k₁, v₁⟩ := hd
    by_cases hk : k₁ = c
    · subst hk
      simp [dictLookup, dictGet]
    · simp only [dictLookup, if_neg hk, List.map_cons, List.mem_cons]
      rw [ih]
      by_cases hc : c ∈ t.map Prod.fst
      · rw [if_pos hc, if_pos (Or.inr hc)]
        unfold dictGet
        rw [dictLookup_cons, if_neg hk]
      · rw [if_neg hc, if_neg ?_]
        rintro (hh | hh)
        · exact hk hh.symm
        · exact hc hh

/-! ### Invariants of the aggregation fold -/

theorem spend_foldl_get (rs : List Record) (d : List (String × ℚ)) (c : String) :
    dictGet (rs.foldl
      (fun d r => dictSet d r.category (dictGet d r.category 0 + r.amount)) d) c 0 =
      dictGet d c 0 + totalFor c rs := by
  induction rs generalizing d with
  | nil => simp [totalFor]
  | cons r rs ih =>
    rw [List.foldl_cons, ih]
    by_cases hc : r.category = c
    · rw [hc, dictGet_set_self]
      simp [totalFor, List.filter_cons, hc]
      ring
    · rw [dictGet_set_ne _ _ _ _ (fun hh => hc hh.symm)]
      simp [totalFor, List.filter_cons, hc]

theorem spend_foldl_mem (rs : List Record) (d : List (String × ℚ)) (c : String) :
    c ∈ (rs.foldl
      (fun d r => dictSet d r.category (dictGet d r.category 0 + r.amount)) d).map
        Prod.fst ↔
      c ∈ d.map Prod.fst ∨ c ∈ rs.map Record.category := by
  induction rs generalizing d with
  | nil => simp
  | cons r rs ih =>
    rw [List.foldl_cons, ih, mem_keys_set]
    simp [List.mem_cons]
    tauto

theorem spend_foldl_nodup (rs : List Record) (d : List (String × ℚ))
    (h : (d.map Prod.fst).Nodup) :
    ((rs.foldl
      (fun d r => dictSet d r.category (dictGet d r.category 0 + r.amount)) d).map
        Prod.fst).Nodup := by
  induction rs generalizing d with
  | nil => exact h
  | cons r rs ih => exact ih _ (nodup_keys_set _ _ _ h)

/-- The value the aggregation associates with a category: the sum of the
amounts of the records with that category when the category appears in the
input, absent from the dict otherwise. -/
theorem spendByCategory_lookup (records : List Record) (c : String) :
    dictLookup (spendByCategory records) c =
      if c ∈ records.map Record.category then some (totalFor c records) else none := by
  unfold spendByCategory
  rw [dictLookup_eq_ite]
  have hmem := spend_foldl_mem records [] c
  have hget := spend_foldl_get records [] c
  simp only [List.map_nil, List.not_mem_nil, false_or] at hmem
  by_cases hc : c ∈ records.map Record.category
  · rw [if_pos (hmem.mpr hc), if_pos hc, hget]
    simp [dictGet, dictLookup]
  · rw [if_neg (fun hh => hc (hmem.mp hh)), if_neg hc]

theorem spendByCategory_nodup (records : List Record) :
    ((spendByCategory records).map Prod.fst).Nodup := by
  unfold spendByCategory
  exact spend_foldl_nodup records [] (by simp)

/-- C7: the aggregation produces a mapping with exactly one entry per
distinct category appearing in the records (keys are exactly the observed
categories, with no duplicate key), each entry's value is the arithmetic
sum of the amounts of the records bearing that category, and the empty
record list yields the empty mapping. -/
theorem aggregate_totals (records : List Record) :
    spendByCategory [] = [] ∧
    ((spendByCategory records).map Prod.fst).Nodup ∧
    (∀ c, c ∈ (spendByCategory records).map Prod.fst ↔
      c ∈ records.map Record.category) ∧
    (∀ c, dictLookup (spendByCategory records) c =
      if c ∈ records.map Record.category then some (totalFor c records)
      else none) := by
  refine ⟨rfl, spendByCategory_nodup records, ?_,
    fun c => spendByCategory_lookup records c⟩
  intro c
  have h := spend_foldl_mem records [] c
  simpa [spendByCategory] using h

/-- C8: aggregation is invariant under permutation of the input records:
for any permutation, every category is associated with the same total (and
is present in one mapping exactly when it is present in the other). -/
theorem aggregate_perm_invariant (l₁ l₂ : List Record) (h : l₁.Perm l₂)
    (c : String) :
    dictLookup (spendByCategory l₁) c = dictLookup (spendByCategory l₂) c := by
  rw [spendByCategory_lookup, spendByCategory_lookup]
  have hmem : c ∈ l₁.map Record.category ↔ c ∈ l₂.map Record.category :=
    (h.map Record.category).mem_iff
  have htot : totalFor c l₁ = totalFor c l₂ := by
    unfold totalFor
    exact ((h.filter (fun r => r.category = c)).map Record.amount).sum_eq
  by_cases hc : c ∈ l₂.map Record.category
  · rw [if_pos (hmem.mpr hc), if_pos hc, htot]
  · rw [if_neg (fun hh => hc (hmem.mp hh)), if_neg hc]

theorem aggregate_perm_invariant_witness :
    dictLookup (spendByCategory
      [(⟨"Food", 1⟩ : Record), (⟨"Shopping", 2⟩ : Record)]) "Food" =
    dictLookup (spendByCategory
      [(⟨"Shopping", 2⟩ : Record), (⟨"Food", 1⟩ : Record)]) "Food" :=
  aggregate_perm_invariant
    [(⟨"Food", 1⟩ : Record), (⟨"Shopping", 2⟩ : Record)]
    [(⟨"Shopping", 2⟩ : Record), (⟨"Food", 1⟩ : Record)]
    (List.Perm.swap (⟨"Shopping", 2⟩ : Record) (⟨"Food", 1⟩ : Record) []) "Food"
